import Mathlib

/-!
Verification of the stoRIR stochastic impulse-response generator.

The Rust sources (src/lib.rs, src/improved.rs, src/common.rs) are shallowly
embedded here.  Machine floats (f32) are modelled by exact rationals `ℚ`;
IEEE special values (±∞, NaN), which the direct-to-reverberant-ratio
computation can produce by dividing by a zero energy sum, are modelled by the
four-constructor type `F` below.  The two transcendental maps of the source,
decibels-to-gain `10^(x/20)` (common.rs `decibels_to_gain`) and `log10`
(used in `calculate_drr_energy_ratio`), have no rational-valued counterpart;
every definition that uses one is parameterised over it (`g` for the
dB-to-gain map, `lg` for `log10` on positive finite arguments), and every
theorem quantifies over those parameters, so each theorem holds in particular
for the real maps.  Random choices (the white-noise buffer and the
`choose_multiple` subsets) are likewise inputs: the noise buffer is an
explicit list argument and the chosen subsets come from a `pick`/`picks`
oracle argument, so the theorems quantify over every possible random outcome.
Rust `u32`/`usize` casts and wrapping subtractions are modelled explicitly
(release-mode wrapping semantics); an out-of-bounds index or a failed
`assert!` — both of which abort the Rust program — are modelled by `none`.
-/

namespace Storir

/-- Rust `f32::round` on an exact rational: round half away from zero.
Written with the executable `Rat.floor` so that concrete inputs evaluate. -/
def rustRoundQ (q : ℚ) : ℤ :=
  if 0 ≤ q then Rat.floor (q + 1/2) else -Rat.floor (-q + 1/2)

/-- Rust `x.round() as uN`: a float-to-unsigned cast saturates at 0 from below.
Saturation at the type maximum is applied separately where it matters. -/
def castU (q : ℚ) : ℕ := (rustRoundQ q).toNat

/-- Largest `u32` value. -/
def U32MAX : ℕ := 4294967295

/-- Largest `usize` value (64-bit target). -/
def USIZEMAX : ℕ := 18446744073709551615

/-- Rust `f32 as u32` after `round`, saturating at `u32::MAX`. -/
def castU32 (q : ℚ) : ℕ := min (castU q) U32MAX

/-- `get_num_samples(Duration::from_millis(ms.round() as u64), rate)` from
both lib.rs and improved.rs: the millisecond value is rounded to an integer,
divided by 1000 and multiplied by the sample rate, then rounded to `u32`. -/
def getNumSamples (ms : ℚ) (rate : ℕ) : ℕ :=
  castU32 (((castU ms : ℕ) : ℚ) / 1000 * rate)

/-- `data.len() - 1` on a `usize`: wraps to `usize::MAX` on the empty buffer
(release-mode wrapping subtraction). -/
def lenM1 (l : List ℚ) : ℕ := if l.length = 0 then USIZEMAX else l.length - 1

/-- The smallest finite `f32`, `f32::MIN = -(2^128 - 2^104)`, used by lib.rs
as the initial accumulator of the running maximum. -/
def f32MIN : ℚ := -(340282366920938463463374607431768211456 - 20282409603651670423947251286016)

/-- `f32::EPSILON = 2⁻²³`. -/
def epsF32 : ℚ := 1 / 8388608

/-- Map with the element index, the vehicle for the source's indexed loops:
`mapi f l` has `f i (l[i])` at every position `i`. -/
def mapi (f : ℕ → ℚ → ℚ) (l : List ℚ) : List ℚ :=
  (List.range l.length).map (fun i => f i (l.getD i 0))

/-! ### IEEE-style extended values for the DRR computation

`calculate_drr_energy_ratio` divides two `f32` energy sums; when the
reverberant sum is zero this produces `+∞` (positive direct energy), `-∞`
(negative direct energy) or `NaN` (zero direct energy), which then flow
through `log10`, the scaling by 10 and the loop-control comparisons.  `F`
models a finite rational together with those three special values, with the
IEEE comparison and arithmetic rules the Rust code relies on. -/

inductive F where
  | fin (q : ℚ)
  | inf
  | neginf
  | nan
deriving DecidableEq

/-- `f32` division of two finite values: IEEE rules for a zero divisor. -/
def fdiv (a b : ℚ) : F :=
  if b = 0 then (if a = 0 then F.nan else if 0 < a then F.inf else F.neginf)
  else F.fin (a / b)

/-- `f32::log10`, parameterised by the (irrational-valued) real `log10` on
positive finite arguments: `log10(+∞) = +∞`, `log10 0 = -∞`, `log10 x = NaN`
for `x < 0`, `log10 NaN = NaN`. -/
def flog10 (lg : ℚ → ℚ) : F → F
  | F.fin q => if 0 < q then F.fin (lg q) else if q = 0 then F.neginf else F.nan
  | F.inf => F.inf
  | F.neginf => F.nan
  | F.nan => F.nan

/-- Multiplication by the constant `10.0`. -/
def fmul10 : F → F
  | F.fin q => F.fin (10 * q)
  | F.inf => F.inf
  | F.neginf => F.neginf
  | F.nan => F.nan

/-- IEEE `a > b`: any comparison with NaN is false; `+∞` exceeds every
non-NaN value but itself. -/
def fgt : F → F → Bool
  | F.nan, _ => false
  | _, F.nan => false
  | F.inf, F.inf => false
  | F.inf, _ => true
  | F.fin _, F.inf => false
  | F.fin a, F.fin b => decide (b < a)
  | F.fin _, F.neginf => true
  | F.neginf, _ => false

/-- IEEE `a < b`. -/
def flt (a b : F) : Bool := fgt b a

/-- IEEE subtraction: `∞ - ∞ = NaN`, NaN propagates. -/
def fsub : F → F → F
  | F.nan, _ => F.nan
  | _, F.nan => F.nan
  | F.fin a, F.fin b => F.fin (a - b)
  | F.fin _, F.inf => F.neginf
  | F.fin _, F.neginf => F.inf
  | F.inf, F.inf => F.nan
  | F.inf, _ => F.inf
  | F.neginf, F.neginf => F.nan
  | F.neginf, _ => F.neginf

/-- IEEE absolute value. -/
def fabs : F → F
  | F.fin q => F.fin (abs q)
  | F.inf => F.inf
  | F.neginf => F.inf
  | F.nan => F.nan

/-! ### Data model -/

/-- The parameter set of lib.rs `ImpulseResponse` (all fields `f32`,
modelled as exact rationals): reverberation time, early decay time, initial
time delay gap, early-reflections duration (all ms) and the target
direct-to-reverberant ratio (dB). -/
structure ImpulseResponse where
  rt60 : ℚ
  edt : ℚ
  itdg : ℚ
  er_duration : ℚ
  drr : ℚ
deriving DecidableEq

/-- lib.rs `ImpulseResponse::new`: stores the five parameters with no
validation whatsoever. -/
def ImpulseResponse.new (rt60 edt itdg er_duration drr : ℚ) : ImpulseResponse :=
  ⟨rt60, edt, itdg, er_duration, drr⟩

/-- The parameter set of improved.rs `ImpulseResponseImproved` (same five
fields). -/
structure ImpulseResponseImproved where
  rt60 : ℚ
  edt : ℚ
  itdg : ℚ
  er_duration : ℚ
  drr : ℚ
deriving DecidableEq

/-- improved.rs `ImpulseResponseImproved::new`: panics (modelled by `none`)
exactly when `rt60 <= edt`, before touching anything else. -/
def ImpulseResponseImproved.new (rt60 edt itdg er_duration drr : ℚ) :
    Option ImpulseResponseImproved :=
  if rt60 ≤ edt then none else some ⟨rt60, edt, itdg, er_duration, drr⟩

/-! ### Envelope shaping (lib.rs `get_edt_and_rt60_slope`) -/

/-- The EDT ramp of `get_edt_and_rt60_slope`: `data[i] -= i` for
`i < edt_num_samples - 1` and `data[i] -= edt_num_samples - 1` for the rest.
`edtM1` is the already-wrapped `u32` value of `edt_num_samples - 1`. -/
def edtShape (edtM1 : ℕ) (data : List ℚ) : List ℚ :=
  mapi (fun i v => if i < edtM1 then v - i else v - edtM1) data

/-- The whole-buffer scaling `*value *= 10.0 / edt_num_samples`. -/
def edtScale (edtN : ℕ) (l : List ℚ) : List ℚ :=
  l.map (fun v => v * (10 / (edtN : ℚ)))

/-- The RT60 segment: `data[i] -= (i - (edt_num_samples + 1)) * 50 /
rt60_num_samples` for `edt_num_samples <= i < rt60_num_samples`. -/
def rt60Shape (edtN rt60N : ℕ) (l : List ℚ) : List ℚ :=
  mapi (fun i v =>
    if edtN ≤ i ∧ i < rt60N then v - ((i : ℚ) - ((edtN : ℚ) + 1)) * 50 / (rt60N : ℚ)
    else v) l

/-- Normalisation and energy conversion: subtract the running maximum
(`fold(f32::MIN, f32::max)`), convert dB to gain with the parameterised map
`g` (the source's `10^(x/20)`), and square. -/
def toEnergy (g : ℚ → ℚ) (l : List ℚ) : List ℚ :=
  l.map (fun v => (g (v - l.foldl max f32MIN)) ^ 2)

/-- One step of Rust `Iterator::max_by` over `(index, value)` pairs compared
by value: the accumulator survives only if strictly greater, so on ties the
later element wins. -/
def maxStep (a x : ℕ × ℚ) : ℕ × ℚ := if x.2 < a.2 then a else x

/-- `iter().enumerate()`: the list of `(index, value)` pairs. -/
def enumL (l : List ℚ) : List (ℕ × ℚ) :=
  (List.range l.length).map (fun i => (i, l.getD i 0))

/-- The `direct_sound_idx` computation of both variants:
`.enumerate().max_by(value comparison).map(index).unwrap_or(0)`.  Rust's
`max_by` returns the last of several equally-maximal elements. -/
def maxByIdx (l : List ℚ) : ℕ :=
  match enumL l with
  | [] => 0
  | p :: ps => (ps.foldl maxStep p).1

/-- lib.rs `get_edt_and_rt60_slope`.  Returns `none` where the Rust code
aborts: when `edt_num_samples = 0` the wrapping `u32` subtraction makes the
EDT loop bound `u32::MAX`, and when a shaping loop bound exceeds the buffer
length, the loop indexes out of bounds and panics. -/
def getEdtAndRt60Slope (g : ℚ → ℚ) (self : ImpulseResponse) (data : List ℚ)
    (rate : ℕ) : Option (List ℚ × ℕ × ℕ × ℕ) :=
  let edtN := getNumSamples self.edt rate
  let rt60N := getNumSamples self.rt60 rate
  let erN := getNumSamples self.er_duration rate
  let edtM1 := if edtN = 0 then U32MAX else edtN - 1
  if data.length < edtM1 then none
  else if max edtN data.length < rt60N then none
  else
    let d4 := toEnergy g (rt60Shape edtN rt60N (edtScale edtN (edtShape edtM1 data)))
    let dsi := maxByIdx d4
    let ers := min (dsi + 1) (lenM1 d4)
    let ere := min (ers + erN) (lenM1 d4)
    some (d4, dsi, ers, ere)

/-! ### Reflection thinning -/

/-- `ray_indices`: the indices in `start..=end` holding a nonzero sample. -/
def rayIndices (l : List ℚ) (s e : ℕ) : List ℕ :=
  ((List.range (e + 1)).drop s).filter (fun i => decide (l.getD i 0 ≠ 0))

/-- Writing `0.0` at every index of `sel`. -/
def zeroAt (l : List ℚ) (sel : List ℕ) : List ℚ :=
  mapi (fun i v => if i ∈ sel then 0 else v) l

/-- rand's `choose_multiple(n)`: an arbitrary duplicate-free size-`n` subset
of `ray`.  The subset actually drawn is supplied by the `pick` oracle; an
oracle value that is not such a subset falls back to the first `n` entries
(itself one of the possible draws), so every result of this function is a
possible random outcome and every possible outcome is reachable. -/
def chooseMultiple (ray : List ℕ) (n : ℕ) (pick : List ℕ) : List ℕ :=
  if pick.Nodup ∧ pick.length = n ∧ ∀ i ∈ pick, i ∈ ray then pick else ray.take n

/-- lib.rs `thin_out_reflections`.  `none` where Rust aborts: probing
`data[idx]` for `idx` in `start..=end` panics when the range reaches past the
buffer, and `assert!(num_rays >= 1)` panics when the rounded removal count is
zero. -/
def thinOutReflections (l : List ℚ) (s e : ℕ) (rate : ℚ) (pick : List ℕ) :
    Option (List ℚ) :=
  if s ≤ e ∧ l.length ≤ e then none
  else
    let ray := rayIndices l s e
    let n := castU (rate * (ray.length : ℚ))
    if 1 ≤ n then some (zeroAt l (chooseMultiple ray n pick)) else none

/-- improved.rs `thin_out_reflections`: the assert is replaced by an
`if num_rays >= 1` guard; a zero removal count leaves the buffer unchanged. -/
def thinOutReflectionsImproved (l : List ℚ) (s e : ℕ) (rate : ℚ) (pick : List ℕ) :
    Option (List ℚ) :=
  if s ≤ e ∧ l.length ≤ e then none
  else
    let ray := rayIndices l s e
    let n := castU (rate * (ray.length : ℚ))
    if 1 ≤ n then some (zeroAt l (chooseMultiple ray n pick)) else some l

/-- lib.rs `create_initial_time_delay_gap`: zeroes the samples at indices in
`[direct_sound_idx + 1, min(direct_sound_idx + 1 + itdg_num_samples,
len - 1))` (the `take(end).skip(dsi+1)` iterator, half-open at the top).
Note lib.rs computes `itdg_num_samples = (itdg * rate).round()` with no
division by 1000. -/
def createInitialTimeDelayGap (self : ImpulseResponse) (data : List ℚ)
    (dsi : ℕ) (rate : ℕ) : List ℚ :=
  let itdgN := castU (self.itdg * (rate : ℚ))
  let endIdx := min (dsi + 1 + itdgN) (lenM1 data)
  mapi (fun i v => if dsi + 1 ≤ i ∧ i < endIdx then 0 else v) data

/-- improved.rs `create_initial_time_delay_gap`: computes
`itdg_num_samples = get_num_samples(itdg, rate)` (with the /1000) and zeroes
the ndarray slice `s![dsi+1 .. end]` — also half-open.  An ndarray slice
whose start exceeds its end, or whose end exceeds the buffer length, panics
(`none`). -/
def createInitialTimeDelayGapImproved (self : ImpulseResponseImproved)
    (data : List ℚ) (dsi : ℕ) (rate : ℕ) : Option (List ℚ) :=
  let itdgN := getNumSamples self.itdg rate
  let endIdx := min (dsi + 1 + itdgN) (lenM1 data)
  if dsi + 1 ≤ endIdx ∧ endIdx ≤ data.length then
    some (mapi (fun i v => if dsi + 1 ≤ i ∧ i < endIdx then 0 else v) data)
  else none

/-- lib.rs `calculate_drr_energy_ratio`:
`10 * log10(sum(data[..=dsi]) / sum(data[dsi+1..]))`, with the IEEE special
values that a zero reverberant sum produces. -/
def calculateDrr (lg : ℚ → ℚ) (data : List ℚ) (dsi : ℕ) : F :=
  fmul10 (flog10 lg (fdiv ((data.take (dsi + 1)).sum) ((data.drop (dsi + 1)).sum)))

/-- The `while drr_low > current_drr` loop of `randomize_reflections`
(lib.rs): thin the early-reflection zone at rate 1/8, the tail at rate 1/10,
recompute the DRR and stop when the change is below `f32::EPSILON`.  `fuel`
bounds the number of iterations (the Rust loop has no syntactic bound); the
oracle `picks` supplies the two random subsets of each iteration. -/
def thinLoop (lg : ℚ → ℚ) (picks : ℕ → List ℕ × List ℕ) (drrLow : ℚ)
    (dsi ers ere : ℕ) : ℕ → List ℚ → F → Option (List ℚ)
  | 0, data, _ => some data
  | fuel + 1, data, cur =>
    if fgt (F.fin drrLow) cur then
      match thinOutReflections data ers ere (1/8) (picks fuel).1 with
      | none => none
      | some d1 =>
        match thinOutReflections d1 ere (lenM1 d1) (1/10) (picks fuel).2 with
        | none => none
        | some d2 =>
          let cur2 := calculateDrr lg d2 dsi
          if flt (fabs (fsub cur cur2)) (F.fin epsF32) then some d2
          else thinLoop lg picks drrLow dsi ers ere fuel d2 cur2
    else some data

/-- lib.rs `randomize_reflections`: apply the initial time-delay gap, compute
the DRR and return immediately if it already exceeds `drr + 0.5`; otherwise
run the thinning loop against `drr - 0.5`. -/
def randomizeReflections (lg : ℚ → ℚ) (picks : ℕ → List ℕ × List ℕ) (fuel : ℕ)
    (self : ImpulseResponse) (data : List ℚ) (dsi ers ere : ℕ) (rate : ℕ) :
    Option (List ℚ) :=
  let d1 := createInitialTimeDelayGap self data dsi rate
  let cur := calculateDrr lg d1 dsi
  if fgt cur (F.fin (self.drr + 1/2)) then some d1
  else thinLoop lg picks (self.drr - 1/2) dsi ers ere fuel d1 cur

/-- lib.rs `generate`: shape the (externally supplied random) noise buffer,
randomise the reflections and return the tail from the direct-sound index. -/
def generate (g lg : ℚ → ℚ) (picks : ℕ → List ℕ × List ℕ) (fuel : ℕ)
    (self : ImpulseResponse) (noise : List ℚ) (rate : ℕ) : Option (List ℚ) :=
  match getEdtAndRt60Slope g self noise rate with
  | none => none
  | some (d4, dsi, ers, ere) =>
    match randomizeReflections lg picks fuel self d4 dsi ers ere rate with
    | none => none
    | some d5 => some (d5.drop dsi)

/-! ### Spec-side definitions (for refinement comparisons) -/

/-- The maximum value of a list (0 on the empty list), used only to phrase
the spec's brute-force description of the direct-sound index. -/
def listMaxQ : List ℚ → ℚ
  | [] => 0
  | x :: xs => xs.foldl max x

/-- Modelled from the spec's words for claim C2: the EARLIEST index attaining
the global maximum (left-to-right scan).  This is the spec's description of
`direct_sound_idx`, to be compared with `maxByIdx`. -/
def firstMaxIdxSpec (l : List ℚ) : ℕ :=
  l.findIdx (fun v => decide (v = listMaxQ l))

/-! ### Theorems -/

theorem rustRoundQ_eq (q : ℚ) :
    rustRoundQ q = if 0 ≤ q then Int.floor (q + 1/2) else -Int.floor (-q + 1/2) := by
  have h (r : ℚ) : Rat.floor r = Int.floor r := by
    rw [Rat.floor_def' r, Rat.floor_def]
  simp only [rustRoundQ, h]

theorem length_mapi (f : ℕ → ℚ → ℚ) (l : List ℚ) : (mapi f l).length = l.length := by
  simp [mapi]

theorem getD_mapi (f : ℕ → ℚ → ℚ) (l : List ℚ) (i : ℕ) (h : i < l.length) :
    (mapi f l).getD i 0 = f i (l.getD i 0) := by
  have hlen : i < (mapi f l).length := by rw [length_mapi]; exact h
  rw [List.getD_eq_getElem _ _ hlen]
  simp [mapi]

theorem getD_eq_zero_of_ge (l : List ℚ) (i : ℕ) (h : l.length ≤ i) : l.getD i 0 = 0 := by
  have : l.length ≤ i := h
  simp [List.getD_eq_getElem?_getD, List.getElem?_eq_none this]

theorem mapi_id (f : ℕ → ℚ → ℚ) (l : List ℚ)
    (h : ∀ i, i < l.length → f i (l.getD i 0) = l.getD i 0) : mapi f l = l := by
  apply List.ext_getElem
  · exact length_mapi f l
  · intro i h1 h2
    have hD := getD_mapi f l i h2
    rw [h i h2, List.getD_eq_getElem _ _ h2] at hD
    rw [List.getD_eq_getElem _ _ h1] at hD
    exact hD

theorem mem_mapi (f : ℕ → ℚ → ℚ) (l : List ℚ) (v : ℚ) (h : v ∈ mapi f l) :
    ∃ i, i < l.length ∧ v = f i (l.getD i 0) := by
  simp only [mapi, List.mem_map, List.mem_range] at h
  obtain ⟨i, hi, hv⟩ := h
  exact ⟨i, hi, hv.symm⟩

/-! ### Properties of the `max_by` fold -/

theorem foldl_maxStep_spec (ps : List (ℕ × ℚ)) : ∀ p : ℕ × ℚ,
    (p :: ps).Pairwise (fun a b => a.1 < b.1) →
    (ps.foldl maxStep p ∈ p :: ps) ∧
    ∀ q ∈ p :: ps, q.2 ≤ (ps.foldl maxStep p).2 ∧
      ((ps.foldl maxStep p).1 < q.1 → q.2 < (ps.foldl maxStep p).2) := by
  induction ps with
  | nil =>
    intro p _
    refine ⟨List.mem_singleton_self p, ?_⟩
    intro q hq
    rw [List.mem_singleton] at hq
    subst hq
    exact ⟨le_refl _, fun h => absurd h (lt_irrefl _)⟩
  | cons x xs ih =>
    intro p hpair
    rw [List.pairwise_cons] at hpair
    obtain ⟨hplt, hpair2⟩ := hpair
    rw [List.pairwise_cons] at hpair2
    obtain ⟨hxlt, hpair3⟩ := hpair2
    have hfold : (x :: xs).foldl maxStep p = xs.foldl maxStep (maxStep p x) := rfl
    by_cases hc : x.2 < p.2
    · have hms : maxStep p x = p := by simp [maxStep, hc]
      have hstep : (p :: xs).Pairwise (fun a b => a.1 < b.1) := by
        rw [List.pairwise_cons]
        exact ⟨fun y hy => hplt y (List.mem_cons_of_mem x hy), hpair3⟩
      obtain ⟨hmem, hall⟩ := ih p hstep
      rw [hfold, hms]
      constructor
      · rcases List.mem_cons.mp hmem with h | h
        · rw [h]; exact List.mem_cons_self _ _
        · exact List.mem_cons_of_mem _ (List.mem_cons_of_mem _ h)
      · intro q hq
        rcases List.mem_cons.mp hq with h | hq2
        · subst h
          exact hall q (List.mem_cons_self _ _)
        · rcases List.mem_cons.mp hq2 with h | hq3
          · subst h
            have hp := (hall p (List.mem_cons_self _ _)).1
            exact ⟨le_trans (le_of_lt hc) hp, fun _ => lt_of_lt_of_le hc hp⟩
          · exact hall q (List.mem_cons_of_mem _ hq3)
    · have hms : maxStep p x = x := by simp [maxStep, hc]
      push_neg at hc
      have hstep : (x :: xs).Pairwise (fun a b => a.1 < b.1) := by
        rw [List.pairwise_cons]
        exact ⟨hxlt, hpair3⟩
      obtain ⟨hmem, hall⟩ := ih x hstep
      rw [hfold, hms]
      constructor
      · exact List.mem_cons_of_mem _ hmem
      · intro q hq
        rcases List.mem_cons.mp hq with h | hq2
        · subst h
          have hx := (hall x (List.mem_cons_self _ _)).1
          refine ⟨le_trans hc hx, ?_⟩
          intro hlt
          exfalso
          have hrgt : q.1 < (xs.foldl maxStep x).1 := by
            rcases List.mem_cons.mp hmem with h | h
            · rw [h]; exact hplt x (List.mem_cons_self _ _)
            · exact hplt _ (List.mem_cons_of_mem x h)
          exact absurd hlt (not_lt.mpr (le_of_lt hrgt))
        · exact hall q hq2

theorem enumL_pairwise (l : List ℚ) : (enumL l).Pairwise (fun a b => a.1 < b.1) := by
  unfold enumL
  rw [List.pairwise_map]
  exact List.pairwise_lt_range l.length

theorem mem_enumL (l : List ℚ) (q : ℕ × ℚ) :
    q ∈ enumL l ↔ q.1 < l.length ∧ q.2 = l.getD q.1 0 := by
  unfold enumL
  rw [List.mem_map]
  constructor
  · rintro ⟨i, hi, rfl⟩
    exact ⟨List.mem_range.mp hi, rfl⟩
  · rintro ⟨h1, h2⟩
    exact ⟨q.1, List.mem_range.mpr h1, by rw [← h2]⟩

theorem enumL_eq_nil (l : List ℚ) : enumL l = [] ↔ l = [] := by
  unfold enumL
  simp [List.map_eq_nil_iff, List.range_eq_nil, List.length_eq_zero]

theorem maxByIdx_spec (l : List ℚ) (hne : l ≠ []) :
    maxByIdx l < l.length ∧
    (∀ i, i < l.length → l.getD i 0 ≤ l.getD (maxByIdx l) 0) ∧
    (∀ j, maxByIdx l < j → j < l.length → l.getD j 0 < l.getD (maxByIdx l) 0) := by
  have hE : enumL l ≠ [] := fun h => hne ((enumL_eq_nil l).mp h)
  cases hEq : enumL l with
  | nil => exact absurd hEq hE
  | cons p ps =>
    have hpair : (p :: ps).Pairwise (fun a b => a.1 < b.1) := by
      rw [← hEq]; exact enumL_pairwise l
    obtain ⟨hmem, hall⟩ := foldl_maxStep_spec ps p hpair
    have hMB : maxByIdx l = (ps.foldl maxStep p).1 := by
      unfold maxByIdx
      rw [hEq]
    set r := ps.foldl maxStep p with hr
    have hrmem : r ∈ enumL l := by rw [hEq]; exact hmem
    have hrfacts := (mem_enumL l r).mp hrmem
    refine ⟨by rw [hMB]; exact hrfacts.1, ?_, ?_⟩
    · intro i hi
      have hqmem : (i, l.getD i 0) ∈ enumL l := (mem_enumL l _).mpr ⟨hi, rfl⟩
      rw [hEq] at hqmem
      have := (hall _ hqmem).1
      rw [hMB, ← hrfacts.2]
      exact this
    · intro j hj hjlen
      have hqmem : (j, l.getD j 0) ∈ enumL l := (mem_enumL l _).mpr ⟨hjlen, rfl⟩
      rw [hEq] at hqmem
      have := (hall _ hqmem).2
      rw [hMB, ← hrfacts.2]
      exact this (by rw [hMB] at hj; exact hj)

/-! ### Properties of the running maximum `fold(f32::MIN, f32::max)` -/

theorem init_le_foldl_max (l : List ℚ) : ∀ b : ℚ, b ≤ l.foldl max b := by
  induction l with
  | nil => intro b; exact le_refl b
  | cons y ys ih =>
    intro b
    exact le_trans (le_max_left b y) (ih (max b y))

theorem le_foldl_max (l : List ℚ) : ∀ (b : ℚ) (x : ℚ), x ∈ l → x ≤ l.foldl max b := by
  induction l with
  | nil => intro b x hx; exact absurd hx (List.not_mem_nil x)
  | cons y ys ih =>
    intro b x hx
    rcases List.mem_cons.mp hx with h | h
    · subst h
      exact le_trans (le_max_right b x) (init_le_foldl_max ys (max b x))
    · exact ih (max b y) x h

theorem foldl_max_mem (l : List ℚ) : ∀ b : ℚ, l.foldl max b = b ∨ l.foldl max b ∈ l := by
  induction l with
  | nil => intro b; exact Or.inl rfl
  | cons y ys ih =>
    intro b
    rcases ih (max b y) with h | h
    · rcases max_choice b y with hc | hc
      · rw [List.foldl_cons, h, hc]
        exact Or.inl rfl
      · rw [List.foldl_cons, h, hc]
        exact Or.inr (List.mem_cons_self y ys)
    · exact Or.inr (List.mem_cons_of_mem y h)

theorem foldl_max_attained (l : List ℚ) (b x : ℚ) (hx : x ∈ l) (hb : b ≤ x) :
    l.foldl max b ∈ l := by
  rcases foldl_max_mem l b with h | h
  · have h1 : x ≤ l.foldl max b := le_foldl_max l b x hx
    rw [h] at h1
    have : x = b := le_antisymm h1 hb
    rw [h, ← this]
    exact hx
  · exact h

/-! ### Rounding-cast facts -/

theorem castU_natCast (n : ℕ) : castU ((n : ℚ)) = n := by
  rw [castU, rustRoundQ_eq]
  rw [if_pos (by positivity : (0:ℚ) ≤ (n:ℚ))]
  have : Int.floor ((n : ℚ) + 1/2) = n := by
    rw [Int.floor_eq_iff]
    constructor
    · push_cast; linarith
    · push_cast; linarith
  rw [this]
  exact Int.toNat_natCast n

theorem rustRoundQ_mono {a b : ℚ} (h : a ≤ b) : rustRoundQ a ≤ rustRoundQ b := by
  rw [rustRoundQ_eq, rustRoundQ_eq]
  by_cases ha : 0 ≤ a
  · rw [if_pos ha, if_pos (le_trans ha h)]
    exact Int.floor_le_floor (by linarith)
  · rw [if_neg ha]
    by_cases hb : 0 ≤ b
    · rw [if_pos hb]
      have h1 : (0:ℤ) ≤ Int.floor (b + 1/2) := by
        apply Int.le_floor.mpr
        push_cast
        linarith
      have h2 : (0:ℤ) ≤ Int.floor (-a + 1/2) := by
        apply Int.le_floor.mpr
        push_cast
        push_neg at ha
        linarith
      omega
    · rw [if_neg hb]
      have : Int.floor (-b + 1/2) ≤ Int.floor (-a + 1/2) :=
        Int.floor_le_floor (by linarith)
      omega

theorem castU_mono {a b : ℚ} (h : a ≤ b) : castU a ≤ castU b := by
  unfold castU
  exact Int.toNat_le_toNat (rustRoundQ_mono h)

theorem castU_le_of_le_nat (q : ℚ) (n : ℕ) (h : q ≤ (n : ℚ)) : castU q ≤ n := by
  calc castU q ≤ castU ((n : ℚ)) := castU_mono h
    _ = n := castU_natCast n

theorem getNumSamples_mono {a b : ℚ} (rate : ℕ) (h : a ≤ b) :
    getNumSamples a rate ≤ getNumSamples b rate := by
  unfold getNumSamples castU32
  apply min_le_min _ (le_refl _)
  apply castU_mono
  have h1 : (castU a : ℚ) ≤ (castU b : ℚ) := by
    exact_mod_cast castU_mono h
  have hr : (0:ℚ) ≤ (rate : ℚ) := by positivity
  apply mul_le_mul_of_nonneg_right _ hr
  apply div_le_div_of_nonneg_right h1
  norm_num

/-! ### Facts about `zeroAt` and `ray_indices` -/

theorem zeroAt_length (l : List ℚ) (sel : List ℕ) : (zeroAt l sel).length = l.length :=
  length_mapi _ l

theorem getD_zeroAt_mem (l : List ℚ) (sel : List ℕ) (i : ℕ) (hi : i < l.length)
    (h : i ∈ sel) : (zeroAt l sel).getD i 0 = 0 := by
  rw [zeroAt, getD_mapi _ _ _ hi, if_pos h]

theorem getD_zeroAt_not_mem (l : List ℚ) (sel : List ℕ) (i : ℕ)
    (h : i ∉ sel) : (zeroAt l sel).getD i 0 = l.getD i 0 := by
  by_cases hi : i < l.length
  · rw [zeroAt, getD_mapi _ _ _ hi, if_neg h]
  · push_neg at hi
    rw [getD_eq_zero_of_ge _ _ (by rw [zeroAt_length]; exact hi),
      getD_eq_zero_of_ge _ _ hi]

theorem getD_zeroAt_cases (l : List ℚ) (sel : List ℕ) (i : ℕ) :
    (zeroAt l sel).getD i 0 = l.getD i 0 ∨ (zeroAt l sel).getD i 0 = 0 := by
  by_cases h : i ∈ sel
  · by_cases hi : i < l.length
    · exact Or.inr (getD_zeroAt_mem l sel i hi h)
    · push_neg at hi
      exact Or.inr (getD_eq_zero_of_ge _ _ (by rw [zeroAt_length]; exact hi))
  · exact Or.inl (getD_zeroAt_not_mem l sel i h)

theorem mem_rayIndices (l : List ℚ) (s e i : ℕ) :
    i ∈ rayIndices l s e ↔ (s ≤ i ∧ i < e + 1 ∧ l.getD i 0 ≠ 0) := by
  unfold rayIndices
  rw [List.mem_filter]
  constructor
  · rintro ⟨hmem, hval⟩
    have hrange : i ∈ List.range (e + 1) := List.mem_of_mem_drop hmem
    refine ⟨?_, List.mem_range.mp hrange, by simpa using hval⟩
    obtain ⟨j, hj, hget⟩ := List.mem_iff_getElem.mp hmem
    rw [List.getElem_drop] at hget
    rw [List.getElem_range] at hget
    omega
  · rintro ⟨hs, he, hval⟩
    refine ⟨?_, by simpa using hval⟩
    apply List.mem_iff_getElem.mpr
    refine ⟨i - s, ?_, ?_⟩
    · rw [List.length_drop, List.length_range]
      omega
    · rw [List.getElem_drop, List.getElem_range]
      omega

theorem rayIndices_nodup (l : List ℚ) (s e : ℕ) : (rayIndices l s e).Nodup := by
  apply List.Nodup.filter
  exact List.Sublist.nodup (List.drop_sublist s _) (List.nodup_range (e + 1))

/-! ### `choose_multiple` always yields a duplicate-free subset of `ray` -/

theorem chooseMultiple_spec (ray : List ℕ) (n : ℕ) (pick : List ℕ)
    (hn : n ≤ ray.length) (hnd : ray.Nodup) :
    (chooseMultiple ray n pick).Nodup ∧
    (chooseMultiple ray n pick).length = n ∧
    ∀ i ∈ chooseMultiple ray n pick, i ∈ ray := by
  unfold chooseMultiple
  by_cases h : pick.Nodup ∧ pick.length = n ∧ ∀ i ∈ pick, i ∈ ray
  · rw [if_pos h]
    exact h
  · rw [if_neg h]
    refine ⟨List.Sublist.nodup (List.take_sublist n ray) hnd, ?_, ?_⟩
    · rw [List.length_take]
      omega
    · intro i hi
      exact List.mem_of_mem_take hi

/-! ### Behaviour of a successful `thin_out_reflections` call -/

theorem castU_le_length (rate : ℚ) (L : ℕ) (hr1 : rate ≤ 1) :
    castU (rate * (L : ℚ)) ≤ L := by
  apply castU_le_of_le_nat
  calc rate * (L : ℚ) ≤ 1 * (L : ℚ) :=
        mul_le_mul_of_nonneg_right hr1 (by positivity)
    _ = (L : ℚ) := one_mul _

theorem thinOut_some_spec (l : List ℚ) (s e : ℕ) (rate : ℚ) (pick : List ℕ)
    (out : List ℚ) (h : thinOutReflections l s e rate pick = some out) :
    out.length = l.length ∧
    (∀ i, out.getD i 0 = l.getD i 0 ∨ out.getD i 0 = 0) ∧
    (∀ i, i < s → out.getD i 0 = l.getD i 0) := by
  unfold thinOutReflections at h
  by_cases hg : s ≤ e ∧ l.length ≤ e
  · rw [if_pos hg] at h
    exact absurd h (by simp)
  · rw [if_neg hg] at h
    by_cases hn : 1 ≤ castU (rate * ((rayIndices l s e).length : ℚ))
    · rw [if_pos hn] at h
      have hout : out = zeroAt l (chooseMultiple (rayIndices l s e)
          (castU (rate * ((rayIndices l s e).length : ℚ))) pick) := by
        injection h.symm
      subst hout
      refine ⟨zeroAt_length _ _, fun i => getD_zeroAt_cases _ _ _, ?_⟩
      intro i hi
      apply getD_zeroAt_not_mem
      intro hmem
      by_cases hv : pick.Nodup ∧
          pick.length = castU (rate * ((rayIndices l s e).length : ℚ)) ∧
          ∀ j ∈ pick, j ∈ rayIndices l s e
      · rw [chooseMultiple, if_pos hv] at hmem
        have := (mem_rayIndices l s e i).mp (hv.2.2 i hmem)
        omega
      · rw [chooseMultiple, if_neg hv] at hmem
        have := (mem_rayIndices l s e i).mp (List.mem_of_mem_take hmem)
        omega
    · rw [if_neg hn] at h
      exact absurd h (by simp)

/-! ### Behaviour of the thinning loop and of `randomize_reflections` -/

theorem thinLoop_some_spec (lg : ℚ → ℚ) (picks : ℕ → List ℕ × List ℕ)
    (drrLow : ℚ) (dsi ers ere : ℕ) : ∀ (fuel : ℕ) (data : List ℚ) (cur : F)
    (out : List ℚ),
    thinLoop lg picks drrLow dsi ers ere fuel data cur = some out →
    out.length = data.length ∧
    (∀ i, out.getD i 0 = data.getD i 0 ∨ out.getD i 0 = 0) ∧
    (dsi < ers → dsi < ere → out.getD dsi 0 = data.getD dsi 0) := by
  intro fuel
  induction fuel with
  | zero =>
    intro data cur out h
    unfold thinLoop at h
    have : out = data := by injection h.symm
    subst this
    exact ⟨rfl, fun i => Or.inl rfl, fun _ _ => rfl⟩
  | succ n ih =>
    intro data cur out h
    unfold thinLoop at h
    by_cases hg : fgt (F.fin drrLow) cur = true
    · rw [if_pos hg] at h
      cases h1 : thinOutReflections data ers ere (1/8) (picks n).1 with
      | none => rw [h1] at h; exact absurd h (by simp)
      | some d1 =>
        rw [h1] at h
        dsimp only at h
        cases h2 : thinOutReflections d1 ere (lenM1 d1) (1/10) (picks n).2 with
        | none => rw [h2] at h; exact absurd h (by simp)
        | some d2 =>
          rw [h2] at h
          dsimp only at h
          obtain ⟨hl1, hv1, hs1⟩ := thinOut_some_spec _ _ _ _ _ _ h1
          obtain ⟨hl2, hv2, hs2⟩ := thinOut_some_spec _ _ _ _ _ _ h2
          by_cases he : flt (fabs (fsub cur (calculateDrr lg d2 dsi))) (F.fin epsF32) = true
      -- epsilon break: out = d2
          · rw [if_pos he] at h
            have : out = d2 := by injection h.symm
            subst this
            refine ⟨by rw [hl2, hl1], ?_, ?_⟩
            · intro i
              rcases hv2 i with h' | h'
              · rw [h']; exact hv1 i
              · exact Or.inr h'
            · intro ha hb
              rw [hs2 dsi hb, hs1 dsi ha]
          · rw [if_neg he] at h
            obtain ⟨hl3, hv3, hs3⟩ := ih d2 (calculateDrr lg d2 dsi) out h
            refine ⟨by rw [hl3, hl2, hl1], ?_, ?_⟩
            · intro i
              rcases hv3 i with h' | h'
              · rw [h']
                rcases hv2 i with h'' | h''
                · rw [h'']; exact hv1 i
                · exact Or.inr h''
              · exact Or.inr h'
            · intro ha hb
              rw [hs3 ha hb, hs2 dsi hb, hs1 dsi ha]
    · rw [if_neg hg] at h
      have : out = data := by injection h.symm
      subst this
      exact ⟨rfl, fun i => Or.inl rfl, fun _ _ => rfl⟩

theorem gap_length (self : ImpulseResponse) (data : List ℚ) (dsi rate : ℕ) :
    (createInitialTimeDelayGap self data dsi rate).length = data.length :=
  length_mapi _ data

theorem gap_getD_zero (self : ImpulseResponse) (data : List ℚ) (dsi rate i : ℕ)
    (h1 : dsi + 1 ≤ i)
    (h2 : i < min (dsi + 1 + castU (self.itdg * (rate : ℚ))) (lenM1 data))
    (hlen : i < data.length) :
    (createInitialTimeDelayGap self data dsi rate).getD i 0 = 0 := by
  rw [createInitialTimeDelayGap, getD_mapi _ _ _ hlen, if_pos ⟨h1, h2⟩]

theorem gap_getD_frame (self : ImpulseResponse) (data : List ℚ) (dsi rate i : ℕ)
    (h : i < dsi + 1 ∨ min (dsi + 1 + castU (self.itdg * (rate : ℚ))) (lenM1 data) ≤ i) :
    (createInitialTimeDelayGap self data dsi rate).getD i 0 = data.getD i 0 := by
  by_cases hlen : i < data.length
  · rw [createInitialTimeDelayGap, getD_mapi _ _ _ hlen]
    rw [if_neg]
    rintro ⟨ha, hb⟩
    omega
  · push_neg at hlen
    rw [getD_eq_zero_of_ge _ _ (by rw [gap_length]; exact hlen),
      getD_eq_zero_of_ge _ _ hlen]

theorem gap_getD_cases (self : ImpulseResponse) (data : List ℚ) (dsi rate i : ℕ) :
    (createInitialTimeDelayGap self data dsi rate).getD i 0 = data.getD i 0 ∨
    (createInitialTimeDelayGap self data dsi rate).getD i 0 = 0 := by
  by_cases hlen : i < data.length
  · rw [createInitialTimeDelayGap, getD_mapi _ _ _ hlen]
    by_cases hc : dsi + 1 ≤ i ∧ i < min (dsi + 1 + castU (self.itdg * (rate : ℚ))) (lenM1 data)
    · rw [if_pos hc]; exact Or.inr rfl
    · rw [if_neg hc]; exact Or.inl rfl
  · push_neg at hlen
    exact Or.inl (by rw [getD_eq_zero_of_ge _ _ (by rw [gap_length]; exact hlen),
      getD_eq_zero_of_ge _ _ hlen])

theorem randomize_some_spec (lg : ℚ → ℚ) (picks : ℕ → List ℕ × List ℕ)
    (fuel : ℕ) (self : ImpulseResponse) (data : List ℚ) (dsi ers ere rate : ℕ)
    (out : List ℚ)
    (h : randomizeReflections lg picks fuel self data dsi ers ere rate = some out) :
    out.length = data.length ∧
    (∀ i, out.getD i 0 = data.getD i 0 ∨ out.getD i 0 = 0) ∧
    (dsi < ers → dsi < ere → out.getD dsi 0 = data.getD dsi 0) := by
  unfold randomizeReflections at h
  set d1 := createInitialTimeDelayGap self data dsi rate with hd1
  have hgapdsi : d1.getD dsi 0 = data.getD dsi 0 :=
    gap_getD_frame self data dsi rate dsi (Or.inl (by omega))
  by_cases hg : fgt (calculateDrr lg d1 dsi) (F.fin (self.drr + 1/2)) = true
  · rw [if_pos hg] at h
    have : out = d1 := by injection h.symm
    subst this
    exact ⟨gap_length self data dsi rate, fun i => gap_getD_cases self data dsi rate i,
      fun _ _ => hgapdsi⟩
  · rw [if_neg hg] at h
    obtain ⟨hl, hv, hs⟩ := thinLoop_some_spec lg picks (self.drr - 1/2) dsi ers ere
      fuel d1 (calculateDrr lg d1 dsi) out h
    refine ⟨by rw [hl]; exact gap_length self data dsi rate, ?_, ?_⟩
    · intro i
      rcases hv i with h' | h'
      · rw [h']; exact gap_getD_cases self data dsi rate i
      · exact Or.inr h'
    · intro ha hb
      rw [hs ha hb, hgapdsi]

/-! ### Facts about the envelope stage -/

theorem length_toEnergy (g : ℚ → ℚ) (l : List ℚ) : (toEnergy g l).length = l.length := by
  simp [toEnergy]

theorem getD_map_of_lt (f : ℚ → ℚ) (l : List ℚ) (i : ℕ) (h : i < l.length) :
    (l.map f).getD i 0 = f (l.getD i 0) := by
  have h2 : i < (l.map f).length := by rw [List.length_map]; exact h
  rw [List.getD_eq_getElem _ _ h2, List.getD_eq_getElem _ _ h, List.getElem_map]

theorem getD_toEnergy (g : ℚ → ℚ) (l : List ℚ) (i : ℕ) (h : i < l.length) :
    (toEnergy g l).getD i 0 = (g (l.getD i 0 - l.foldl max f32MIN)) ^ 2 :=
  getD_map_of_lt _ l i h

theorem mem_toEnergy (g : ℚ → ℚ) (l : List ℚ) (v : ℚ) (h : v ∈ toEnergy g l) :
    ∃ x ∈ l, v = (g (x - l.foldl max f32MIN)) ^ 2 := by
  unfold toEnergy at h
  obtain ⟨x, hx, hv⟩ := List.mem_map.mp h
  exact ⟨x, hx, hv.symm⟩

theorem toEnergy_nonneg (g : ℚ → ℚ) (l : List ℚ) :
    ∀ v ∈ toEnergy g l, 0 ≤ v := by
  intro v hv
  obtain ⟨x, _, hx⟩ := mem_toEnergy g l v hv
  rw [hx]
  exact sq_nonneg _

theorem toEnergy_le (g : ℚ → ℚ) (l : List ℚ) (hmono : Monotone g)
    (hpos : ∀ x, 0 ≤ g x) : ∀ v ∈ toEnergy g l, v ≤ (g 0) ^ 2 := by
  intro v hv
  obtain ⟨x, hxl, hx⟩ := mem_toEnergy g l v hv
  rw [hx]
  have h1 : x - l.foldl max f32MIN ≤ 0 :=
    sub_nonpos.mpr (le_foldl_max l f32MIN x hxl)
  exact pow_le_pow_left₀ (hpos _) (hmono h1) 2

theorem toEnergy_peak (g : ℚ → ℚ) (l : List ℚ) (x : ℚ) (hx : x ∈ l)
    (hb : f32MIN ≤ x) :
    ∃ j, j < l.length ∧ (toEnergy g l).getD j 0 = (g 0) ^ 2 := by
  have hmem : l.foldl max f32MIN ∈ l := foldl_max_attained l f32MIN x hx hb
  obtain ⟨j, hj, hget⟩ := List.mem_iff_getElem.mp hmem
  refine ⟨j, hj, ?_⟩
  rw [getD_toEnergy g l j hj, List.getD_eq_getElem _ _ hj, hget, sub_self]

/-- Inversion of a successful `get_edt_and_rt60_slope`: the components in
terms of the shaping stages, plus the negations of the panic guards. -/
theorem getEdt_some (g : ℚ → ℚ) (self : ImpulseResponse) (data : List ℚ)
    (rate : ℕ) (d4 : List ℚ) (dsi ers ere : ℕ)
    (h : getEdtAndRt60Slope g self data rate = some (d4, dsi, ers, ere)) :
    d4 = toEnergy g (rt60Shape (getNumSamples self.edt rate)
        (getNumSamples self.rt60 rate)
        (edtScale (getNumSamples self.edt rate)
          (edtShape (if getNumSamples self.edt rate = 0 then U32MAX
            else getNumSamples self.edt rate - 1) data))) ∧
    dsi = maxByIdx d4 ∧
    ers = min (dsi + 1) (lenM1 d4) ∧
    ere = min (ers + getNumSamples self.er_duration rate) (lenM1 d4) ∧
    ¬ data.length < (if getNumSamples self.edt rate = 0 then U32MAX
        else getNumSamples self.edt rate - 1) ∧
    ¬ max (getNumSamples self.edt rate) data.length < getNumSamples self.rt60 rate := by
  simp only [getEdtAndRt60Slope] at h
  set edtM1 := (if getNumSamples self.edt rate = 0 then U32MAX
    else getNumSamples self.edt rate - 1) with hedtM1
  split_ifs at h with h1 h2
  simp only [Option.some.injEq, Prod.mk.injEq] at h
  obtain ⟨hA, hB, hC, hD⟩ := h
  refine ⟨hA.symm, ?_, ?_, ?_, h1, h2⟩
  · rw [← hA]
    exact hB.symm
  · rw [← hA, ← hB]
    exact hC.symm
  · rw [← hA, ← hC]
    exact hD.symm

theorem length_edtShape (edtM1 : ℕ) (data : List ℚ) :
    (edtShape edtM1 data).length = data.length := length_mapi _ data

theorem length_edtScale (edtN : ℕ) (l : List ℚ) :
    (edtScale edtN l).length = l.length := List.length_map l _

theorem length_rt60Shape (edtN rt60N : ℕ) (l : List ℚ) :
    (rt60Shape edtN rt60N l).length = l.length := length_mapi _ l

theorem getEdt_length (g : ℚ → ℚ) (self : ImpulseResponse) (data : List ℚ)
    (rate : ℕ) (d4 : List ℚ) (dsi ers ere : ℕ)
    (h : getEdtAndRt60Slope g self data rate = some (d4, dsi, ers, ere)) :
    d4.length = data.length := by
  obtain ⟨hA, _, _, _, _, _⟩ := getEdt_some g self data rate d4 dsi ers ere h
  rw [hA, length_toEnergy, length_rt60Shape, length_edtScale, length_edtShape]

theorem getEdt_nonneg (g : ℚ → ℚ) (self : ImpulseResponse) (data : List ℚ)
    (rate : ℕ) (d4 : List ℚ) (dsi ers ere : ℕ)
    (h : getEdtAndRt60Slope g self data rate = some (d4, dsi, ers, ere)) :
    ∀ v ∈ d4, 0 ≤ v := by
  obtain ⟨hA, _, _, _, _, _⟩ := getEdt_some g self data rate d4 dsi ers ere h
  rw [hA]
  exact toEnergy_nonneg g _

/-- The head of the shaped (pre-energy) buffer is the raw head sample scaled
by `10 / edt_num_samples`; with a head sample at least `-5` this is at least
`-50`, hence far above `f32::MIN`, so the running maximum is attained. -/
theorem d3_head (self : ImpulseResponse) (data : List ℚ) (rate : ℕ)
    (hedtN : 1 ≤ getNumSamples self.edt rate) (hne : data ≠ []) :
    (rt60Shape (getNumSamples self.edt rate) (getNumSamples self.rt60 rate)
        (edtScale (getNumSamples self.edt rate)
          (edtShape (if getNumSamples self.edt rate = 0 then U32MAX
            else getNumSamples self.edt rate - 1) data))).getD 0 0 =
      data.getD 0 0 * (10 / ((getNumSamples self.edt rate : ℕ) : ℚ)) := by
  set edtN := getNumSamples self.edt rate with hedt
  have hN : ¬ edtN = 0 := by omega
  rw [if_neg hN]
  have hlen0 : 0 < data.length := List.length_pos.mpr hne
  have hlen1 : 0 < (edtShape (edtN - 1) data).length := by
    rw [length_edtShape]; exact hlen0
  have hlen2 : 0 < (edtScale edtN (edtShape (edtN - 1) data)).length := by
    rw [length_edtScale]; exact hlen1
  rw [rt60Shape, getD_mapi _ _ 0 hlen2]
  rw [if_neg (by omega)]
  rw [edtScale, getD_map_of_lt _ _ 0 hlen1]
  rw [edtShape, getD_mapi _ _ 0 hlen0]
  by_cases hc : 0 < edtN - 1
  · rw [if_pos hc]
    norm_num
  · rw [if_neg hc]
    have : edtN - 1 = 0 := by omega
    rw [this]
    norm_num

/-- On a successful envelope run with at least one EDT sample and a head
noise sample at least `-5`, the buffer value at the direct-sound index is
exactly `(g 0)^2` and bounds every value of the energy buffer. -/
theorem getEdt_peak (g : ℚ → ℚ) (self : ImpulseResponse) (data : List ℚ)
    (rate : ℕ) (d4 : List ℚ) (dsi ers ere : ℕ)
    (hmono : Monotone g) (hpos : ∀ x, 0 ≤ g x)
    (hedtN : 1 ≤ getNumSamples self.edt rate)
    (hd0 : -5 ≤ data.getD 0 0) (hne : data ≠ [])
    (h : getEdtAndRt60Slope g self data rate = some (d4, dsi, ers, ere)) :
    d4.getD dsi 0 = (g 0) ^ 2 ∧ ∀ v ∈ d4, v ≤ (g 0) ^ 2 := by
  obtain ⟨hA, hB, _, _, _, _⟩ := getEdt_some g self data rate d4 dsi ers ere h
  set d3 := rt60Shape (getNumSamples self.edt rate) (getNumSamples self.rt60 rate)
    (edtScale (getNumSamples self.edt rate)
      (edtShape (if getNumSamples self.edt rate = 0 then U32MAX
        else getNumSamples self.edt rate - 1) data)) with hd3
  have hhead : d3.getD 0 0 = data.getD 0 0 * (10 / ((getNumSamples self.edt rate : ℕ) : ℚ)) :=
    d3_head self data rate hedtN hne
  have hlen3 : d3.length = data.length := by
    rw [hd3, length_rt60Shape, length_edtScale, length_edtShape]
  have hlen0 : 0 < d3.length := by
    rw [hlen3]; exact List.length_pos.mpr hne
  have hEQ : (1:ℚ) ≤ ((getNumSamples self.edt rate : ℕ) : ℚ) := by
    exact_mod_cast hedtN
  have hb : (-50 : ℚ) ≤ d3.getD 0 0 := by
    rw [hhead]
    have ht0 : (0:ℚ) < 10 / ((getNumSamples self.edt rate : ℕ) : ℚ) := by positivity
    have ht10 : 10 / ((getNumSamples self.edt rate : ℕ) : ℚ) ≤ 10 := by
      rw [div_le_iff₀ (by linarith)]
      nlinarith
    rcases le_or_lt 0 (data.getD 0 0) with hv | hv
    · nlinarith
    · nlinarith
  have hmem0 : d3.getD 0 0 ∈ d3 := by
    rw [List.getD_eq_getElem _ _ hlen0]
    exact List.getElem_mem hlen0
  have hfmin : f32MIN ≤ d3.getD 0 0 := by
    have : f32MIN ≤ (-50 : ℚ) := by norm_num [f32MIN]
    linarith
  obtain ⟨j, hj, hjval⟩ := toEnergy_peak g d3 (d3.getD 0 0) hmem0 hfmin
  have hlen4 : d4.length = data.length := by
    rw [hA, length_toEnergy, hlen3]
  have hd4ne : d4 ≠ [] := by
    intro hcon
    rw [hcon] at hlen4
    simp only [List.length_nil] at hlen4
    have := List.length_pos.mpr hne
    omega
  obtain ⟨hdsilt, hmax, _⟩ := maxByIdx_spec d4 hd4ne
  have hub : ∀ v ∈ d4, v ≤ (g 0) ^ 2 := by
    rw [hA]
    exact toEnergy_le g d3 hmono hpos
  refine ⟨?_, hub⟩
  have hjlt : j < d4.length := by
    rw [hA, length_toEnergy]
    exact hj
  have hjd4 : d4.getD j 0 = (g 0) ^ 2 := by rw [hA]; exact hjval
  have h1 : (g 0) ^ 2 ≤ d4.getD (maxByIdx d4) 0 := by
    rw [← hjd4]
    exact hmax j hjlt
  have h2 : d4.getD (maxByIdx d4) 0 ≤ (g 0) ^ 2 := by
    apply hub
    rw [List.getD_eq_getElem _ _ (by rw [← hB] at hdsilt; rw [← hB]; exact hdsilt)]
    exact List.getElem_mem _
  rw [hB]
  exact le_antisymm h2 h1

/-! ### Early-exit behaviour of `randomize_reflections` -/

theorem gap_nonneg (self : ImpulseResponse) (data : List ℚ) (dsi rate : ℕ)
    (hnn : ∀ v ∈ data, 0 ≤ v) :
    ∀ v ∈ createInitialTimeDelayGap self data dsi rate, 0 ≤ v := by
  intro v hv
  obtain ⟨i, hi, hvf⟩ := mem_mapi _ _ v hv
  split_ifs at hvf
  · rw [hvf]
  · rw [hvf]
    apply hnn
    rw [List.getD_eq_getElem _ _ hi]
    exact List.getElem_mem hi

/-- Claim C6 core: a zero reverberant-energy sum after the time-delay gap
makes `current_drr` either `+∞` (direct energy positive, so the early return
fires) or NaN (both comparisons false, so the loop body never runs); either
way the buffer leaves `randomize_reflections` exactly as the gap step left
it, and no iteration of the thinning loop executes. -/
theorem randomize_zero_reverb (lg : ℚ → ℚ) (picks : ℕ → List ℕ × List ℕ)
    (fuel : ℕ) (self : ImpulseResponse) (data : List ℚ) (dsi ers ere rate : ℕ)
    (hnn : ∀ v ∈ data, 0 ≤ v)
    (hrev : ((createInitialTimeDelayGap self data dsi rate).drop (dsi + 1)).sum = 0) :
    randomizeReflections lg picks fuel self data dsi ers ere rate =
      some (createInitialTimeDelayGap self data dsi rate) := by
  simp only [randomizeReflections]
  set d1 := createInitialTimeDelayGap self data dsi rate with hd1
  have hd1nn : ∀ v ∈ d1, 0 ≤ v := gap_nonneg self data dsi rate hnn
  have hdir : 0 ≤ (d1.take (dsi + 1)).sum :=
    List.sum_nonneg (fun x hx => hd1nn x (List.mem_of_mem_take hx))
  rcases eq_or_lt_of_le hdir with heq | hpos
  · have hcalc : calculateDrr lg d1 dsi = F.nan := by
      unfold calculateDrr
      rw [hrev, ← heq]
      simp [fdiv, flog10, fmul10]
    rw [hcalc]
    rw [if_neg (by simp [fgt])]
    cases fuel with
    | zero => rfl
    | succ n =>
      simp only [thinLoop]
      rw [if_neg (by simp [fgt])]
  · have hcalc : calculateDrr lg d1 dsi = F.inf := by
      unfold calculateDrr
      rw [hrev]
      simp [fdiv, flog10, fmul10, hpos.ne.symm, hpos]
    rw [hcalc]
    rw [if_pos (by simp [fgt])]

/-- Claim C7 core: when the DRR measured right after the gap step already
exceeds `drr + 0.5`, `randomize_reflections` returns the gapped buffer
untouched (zero loop iterations). -/
theorem randomize_high_drr (lg : ℚ → ℚ) (picks : ℕ → List ℕ × List ℕ)
    (fuel : ℕ) (self : ImpulseResponse) (data : List ℚ) (dsi ers ere rate : ℕ)
    (hgt : fgt (calculateDrr lg (createInitialTimeDelayGap self data dsi rate) dsi)
      (F.fin (self.drr + 1/2)) = true) :
    randomizeReflections lg picks fuel self data dsi ers ere rate =
      some (createInitialTimeDelayGap self data dsi rate) := by
  simp only [randomizeReflections]
  rw [if_pos hgt]

/-! ### Unfolding a successful `generate` -/

theorem generate_some (g lg : ℚ → ℚ) (picks : ℕ → List ℕ × List ℕ) (fuel : ℕ)
    (self : ImpulseResponse) (noise : List ℚ) (rate : ℕ) (out : List ℚ)
    (h : generate g lg picks fuel self noise rate = some out) :
    ∃ d4 dsi ers ere d5,
      getEdtAndRt60Slope g self noise rate = some (d4, dsi, ers, ere) ∧
      randomizeReflections lg picks fuel self d4 dsi ers ere rate = some d5 ∧
      out = d5.drop dsi := by
  unfold generate at h
  cases hE : getEdtAndRt60Slope g self noise rate with
  | none => rw [hE] at h; exact absurd h (by simp)
  | some q =>
    obtain ⟨d4, dsi, ers, ere⟩ := q
    rw [hE] at h
    dsimp only at h
    cases hR : randomizeReflections lg picks fuel self d4 dsi ers ere rate with
    | none => rw [hR] at h; exact absurd h (by simp)
    | some d5 =>
      rw [hR] at h
      dsimp only at h
      refine ⟨d4, dsi, ers, ere, d5, rfl, hR, ?_⟩
      injection h with h
      exact h.symm

/-! ### Claim theorems -/

/-- Claim C1, counterexample: the claim says constructing via
`ImpulseResponse::new` fails with a configuration error whenever
`rt60_ms <= edt_ms`; but lib.rs `ImpulseResponse::new` performs no check and
succeeds at `rt60 = 50 <= 100 = edt`, returning the parameter record. -/
theorem C1_counterexample :
    ImpulseResponse.new 50 100 0 0 0 = ⟨50, 100, 0, 0, 0⟩ ∧ (50 : ℚ) ≤ 100 :=
  ⟨rfl, by norm_num⟩

/-- Claim C1, amended: only `ImpulseResponseImproved::new` validates — it
panics exactly when `rt60 <= edt` and otherwise returns the record, before
any other computation; lib.rs `ImpulseResponse::new` always succeeds with no
validation. -/
theorem C1_amended (rt60 edt itdg er drr : ℚ) :
    (ImpulseResponseImproved.new rt60 edt itdg er drr = none ↔ rt60 ≤ edt) ∧
    (ImpulseResponseImproved.new rt60 edt itdg er drr = some ⟨rt60, edt, itdg, er, drr⟩ ↔
      edt < rt60) ∧
    ImpulseResponse.new rt60 edt itdg er drr = ⟨rt60, edt, itdg, er, drr⟩ := by
  unfold ImpulseResponseImproved.new ImpulseResponse.new
  by_cases hc : rt60 ≤ edt
  · rw [if_pos hc]
    refine ⟨iff_of_true rfl hc, iff_of_false (by simp) (not_lt.mpr hc), rfl⟩
  · rw [if_neg hc]
    push_neg at hc
    refine ⟨iff_of_false (by simp) (not_le.mpr hc), iff_of_true rfl hc, rfl⟩

/-- Claim C2, counterexample: on the shaped energy buffer `[1, 1]` (reachable
from noise `[5/2, 0]` with one EDT sample and a two-sample RT60 window, where
both samples normalise to 0 dB), the envelope stage reports
`direct_sound_idx = 1`, while the earliest index attaining the maximum is 0:
Rust `Iterator::max_by` keeps the LAST of equally-maximal elements. -/
theorem C2_counterexample :
    getEdtAndRt60Slope (fun x => x + 1) ⟨2, 1, 0, 0, 0⟩ [5/2, 0] 1000 =
      some ([1, 1], 1, 1, 1) ∧
    firstMaxIdxSpec [1, 1] = 0 ∧ (1 : ℕ) ≠ 0 := by
  have h2 : List.range 2 = [0, 1] := by decide
  have ht0 : Int.toNat 2 = 2 := by decide
  refine ⟨?_, ?_, by decide⟩
  · simp only [getEdtAndRt60Slope, getNumSamples, castU32, castU, rustRoundQ_eq, U32MAX,
      toEnergy, rt60Shape, edtScale, edtShape, mapi, maxByIdx, enumL, lenM1, maxStep,
      f32MIN, List.getD, h2, List.map, List.foldl, List.length]
    norm_num [Rat.floor_def', max_def, ht0]
  · simp only [firstMaxIdxSpec, listMaxQ, List.foldl, List.findIdx, List.findIdx.go]
    norm_num [max_def]

/-- Claim C2, amended: `direct_sound_idx` attains the global maximum of the
energy buffer, but the tie-break is the LAST (largest) index attaining it,
not the earliest: every strictly later index holds a strictly smaller
value. -/
theorem C2_amended (g : ℚ → ℚ) (self : ImpulseResponse) (data : List ℚ)
    (rate : ℕ) (d4 : List ℚ) (dsi ers ere : ℕ) (hne : data ≠ [])
    (h : getEdtAndRt60Slope g self data rate = some (d4, dsi, ers, ere)) :
    dsi < d4.length ∧
    (∀ i, i < d4.length → d4.getD i 0 ≤ d4.getD dsi 0) ∧
    (∀ j, dsi < j → j < d4.length → d4.getD j 0 < d4.getD dsi 0) := by
  obtain ⟨_, hB, _, _, _, _⟩ := getEdt_some g self data rate d4 dsi ers ere h
  have hlen4 : d4.length = data.length := getEdt_length g self data rate d4 dsi ers ere h
  have hd4ne : d4 ≠ [] := by
    intro hcon
    rw [hcon] at hlen4
    simp only [List.length_nil] at hlen4
    have := List.length_pos.mpr hne
    omega
  rw [hB]
  exact maxByIdx_spec d4 hd4ne

/-- Claim C2 witness: the amended theorem applied to the concrete tie
`[1, 1]`: index 1 is in range and the value at index 0 is bounded by the
value at the reported direct-sound index 1. -/
theorem C2_amended_witness :
    (1 : ℕ) < ([1, 1] : List ℚ).length ∧
    ([1, 1] : List ℚ).getD 0 0 ≤ ([1, 1] : List ℚ).getD 1 0 := by
  have h2 : List.range 2 = [0, 1] := by decide
  have ht0 : Int.toNat 2 = 2 := by decide
  have hE : getEdtAndRt60Slope (fun x => x + 1) ⟨2, 1, 0, 0, 0⟩ [5/2, 0] 1000 =
      some ([1, 1], 1, 1, 1) := by
    simp only [getEdtAndRt60Slope, getNumSamples, castU32, castU, rustRoundQ_eq, U32MAX,
      toEnergy, rt60Shape, edtScale, edtShape, mapi, maxByIdx, enumL, lenM1, maxStep,
      f32MIN, List.getD, h2, List.map, List.foldl, List.length]
    norm_num [Rat.floor_def', max_def, ht0]
  have h := C2_amended (fun x => x + 1) ⟨2, 1, 0, 0, 0⟩ [5/2, 0] 1000 [1, 1] 1 1 1
    (by decide) hE
  exact ⟨h.1, h.2.1 0 (by norm_num)⟩

/-- Claim C3, counterexample: with `itdg = 1 ms`, `rate = 1000` (so
`itdg_samples = 1`) and `direct_sound_idx = 0` on the buffer `[5,5,5,5]`,
the improved gap step zeroes only index 1 and leaves index 2 at 5, although
the claim requires every index in `(0, 0+1+1] = {1, 2}` to be zero: the
zeroed range is half-open, excluding its upper endpoint. -/
theorem C3_counterexample :
    createInitialTimeDelayGapImproved ⟨500, 50, 1, 50, -1⟩ [5, 5, 5, 5] 0 1000 =
      some [5, 0, 5, 5] ∧
    getNumSamples (1 : ℚ) 1000 = 1 ∧
    ([5, 0, 5, 5] : List ℚ).getD 2 0 = 5 := by
  have h4 : List.range 4 = [0, 1, 2, 3] := by decide
  have ht1 : Int.toNat 1 = 1 := by decide
  refine ⟨?_, ?_, by decide⟩
  · simp only [createInitialTimeDelayGapImproved, getNumSamples, castU32, castU,
      rustRoundQ_eq, U32MAX, lenM1, mapi, List.getD, h4, List.map, List.length]
    norm_num [Rat.floor_def', ht1]
  · simp only [getNumSamples, castU32, castU, rustRoundQ_eq, U32MAX]
    norm_num [Rat.floor_def', ht1]

/-- Claim C3, amended: after a non-panicking improved gap step with
`itdg_samples = get_num_samples(itdg_ms, rate)`, every index in the
HALF-OPEN range `[direct_sound_idx + 1, min(direct_sound_idx + 1 +
itdg_samples, len - 1))` is exactly 0 and every index outside it (including
the range's upper endpoint) is unchanged.  (The basic lib.rs variant zeroes
the same shape of range but computes `itdg_samples = round(itdg_ms * rate)`
with no division by 1000.) -/
theorem C3_amended (self : ImpulseResponseImproved) (data : List ℚ)
    (dsi rate : ℕ) (out : List ℚ)
    (h : createInitialTimeDelayGapImproved self data dsi rate = some out) :
    out.length = data.length ∧
    (∀ i, dsi + 1 ≤ i →
      i < min (dsi + 1 + getNumSamples self.itdg rate) (lenM1 data) →
      out.getD i 0 = 0) ∧
    (∀ i, i < dsi + 1 ∨
      min (dsi + 1 + getNumSamples self.itdg rate) (lenM1 data) ≤ i →
      out.getD i 0 = data.getD i 0) := by
  simp only [createInitialTimeDelayGapImproved] at h
  split_ifs at h with hg
  simp only [Option.some.injEq] at h
  refine ⟨by rw [← h, length_mapi], ?_, ?_⟩
  · intro i h1 h2
    have hilen : i < data.length := by omega
    rw [← h, getD_mapi _ _ _ hilen, if_pos ⟨h1, h2⟩]
  · intro i hcond
    by_cases hilen : i < data.length
    · rw [← h, getD_mapi _ _ _ hilen, if_neg (by omega)]
    · push_neg at hilen
      rw [← h, getD_eq_zero_of_ge _ _ (by rw [length_mapi]; exact hilen),
        getD_eq_zero_of_ge _ _ hilen]

/-- Claim C3 witness: the amended theorem at the counterexample input —
index 1 (inside the half-open gap range) is zeroed, index 3 (outside it) is
untouched. -/
theorem C3_amended_witness :
    ([5, 0, 5, 5] : List ℚ).length = ([5, 5, 5, 5] : List ℚ).length ∧
    ([5, 0, 5, 5] : List ℚ).getD 1 0 = 0 ∧
    ([5, 0, 5, 5] : List ℚ).getD 3 0 = ([5, 5, 5, 5] : List ℚ).getD 3 0 := by
  have h4 : List.range 4 = [0, 1, 2, 3] := by decide
  have ht1 : Int.toNat 1 = 1 := by decide
  have hsome : createInitialTimeDelayGapImproved ⟨500, 50, 1, 50, -1⟩ [5, 5, 5, 5] 0 1000 =
      some [5, 0, 5, 5] := by
    simp only [createInitialTimeDelayGapImproved, getNumSamples, castU32, castU,
      rustRoundQ_eq, U32MAX, lenM1, mapi, List.getD, h4, List.map, List.length]
    norm_num [Rat.floor_def', ht1]
  have hitdg : getNumSamples (⟨500, 50, 1, 50, -1⟩ : ImpulseResponseImproved).itdg 1000 = 1 := by
    simp only [getNumSamples, castU32, castU, rustRoundQ_eq, U32MAX]
    norm_num [Rat.floor_def', ht1]
  have h := C3_amended ⟨500, 50, 1, 50, -1⟩ [5, 5, 5, 5] 0 1000 [5, 0, 5, 5] hsome
  refine ⟨h.1, ?_, ?_⟩
  · apply h.2.1 1 (by norm_num)
    rw [hitdg]
    simp [lenM1]
  · apply h.2.2 3
    right
    rw [hitdg]
    simp [lenM1]

/-- Claim C4, counterexample: lib.rs `thin_out_reflections` asserts
`num_rays >= 1`; on a zone whose nonzero count rounds to 0 removals (here
the zone `[1, 2]` of `[1, 0, 0]` with rate 1/10) the assert fires and the
call panics instead of being a no-op. -/
theorem C4_counterexample :
    thinOutReflections [1, 0, 0] 1 2 (1/10) [] = none := by
  have h3 : List.range 3 = [0, 1, 2] := by decide
  simp only [thinOutReflections, rayIndices, h3, castU, rustRoundQ_eq]
  norm_num

/-- Claim C4, amended: for the improved variant (the basic variant panics
when the rounded count is zero), a call with `rate <= 1` on an in-bounds
zone removes exactly `round(rate * |nonzero indices in [start, end]|)`
samples — a duplicate-free subset of the currently nonzero indices — never
more than there are nonzero indices, and is an exact no-op when that count
is zero. -/
theorem C4_amended (data : List ℚ) (s e : ℕ) (rate : ℚ) (pick : List ℕ)
    (hr0 : 0 < rate) (hr1 : rate ≤ 1) (hg : ¬(s ≤ e ∧ data.length ≤ e)) :
    ∃ out sel,
      thinOutReflectionsImproved data s e rate pick = some out ∧
      sel.Nodup ∧ (∀ i ∈ sel, i ∈ rayIndices data s e) ∧
      sel.length = castU (rate * ((rayIndices data s e).length : ℚ)) ∧
      out = zeroAt data sel ∧
      castU (rate * ((rayIndices data s e).length : ℚ)) ≤ (rayIndices data s e).length ∧
      (castU (rate * ((rayIndices data s e).length : ℚ)) = 0 → out = data) := by
  have hle : castU (rate * ((rayIndices data s e).length : ℚ)) ≤
      (rayIndices data s e).length :=
    castU_le_length rate _ hr1
  by_cases hn : 1 ≤ castU (rate * ((rayIndices data s e).length : ℚ))
  · obtain ⟨hnd, hlen, hsub⟩ := chooseMultiple_spec (rayIndices data s e)
      (castU (rate * ((rayIndices data s e).length : ℚ))) pick hle
      (rayIndices_nodup data s e)
    refine ⟨_, chooseMultiple (rayIndices data s e)
        (castU (rate * ((rayIndices data s e).length : ℚ))) pick,
      ?_, hnd, hsub, hlen, rfl, hle, ?_⟩
    · simp only [thinOutReflectionsImproved]
      rw [if_neg hg, if_pos hn]
    · intro h0
      omega
  · refine ⟨data, [], ?_, List.nodup_nil, by simp, by simp only [List.length_nil]; omega,
      ?_, hle, fun _ => rfl⟩
    · simp only [thinOutReflectionsImproved]
      rw [if_neg hg, if_neg hn]
    · symm
      apply mapi_id
      intro i hi
      simp

/-- Claim C4 witness: eight nonzero samples at rate 1/8 — the improved call
returns (no panic). -/
theorem C4_amended_witness :
    (thinOutReflectionsImproved [1, 1, 1, 1, 1, 1, 1, 1] 0 7 (1/8) []).isSome = true := by
  obtain ⟨out, sel, hsome, _⟩ := C4_amended [1, 1, 1, 1, 1, 1, 1, 1] 0 7 (1/8) []
    (by norm_num) (by norm_num) (by simp)
  rw [hsome]
  rfl

/-- Claim C8 (code bug): with `edt_ms = 0.4` (which rounds to 0 ms, hence
`edt_samples = 0`) the envelope stage does not clamp as the spec mandates:
the wrapping `u32` subtraction `edt_num_samples - 1` makes the EDT loop
bound `u32::MAX` and the loop indexes the 8-sample buffer out of bounds —
the stage aborts (`none`) instead of clamping to one sample. -/
theorem C8_missing_edt_clamp :
    getEdtAndRt60Slope (fun x => x) ⟨100, 2/5, 0, 0, 0⟩ (List.replicate 8 1) 16000 =
      none := by
  simp only [getEdtAndRt60Slope, getNumSamples, castU32, castU, rustRoundQ_eq, U32MAX]
  norm_num

/-- Claim C9: every value of the energy buffer produced by the envelope
stage (dB-to-gain conversion followed by squaring) is nonnegative, for every
dB-to-gain map `g`. -/
theorem C9_energy_nonneg (g : ℚ → ℚ) (self : ImpulseResponse) (data : List ℚ)
    (rate : ℕ) (d4 : List ℚ) (dsi ers ere : ℕ)
    (h : getEdtAndRt60Slope g self data rate = some (d4, dsi, ers, ere)) :
    ∀ v ∈ d4, 0 ≤ v :=
  getEdt_nonneg g self data rate d4 dsi ers ere h

/-- Claim C9 witness: the nonnegativity theorem at a concrete run, read off
at the head element of the produced energy buffer. -/
theorem C9_witness : (0 : ℚ) ≤ ([1, 1] : List ℚ).getD 0 0 := by
  have h2 : List.range 2 = [0, 1] := by decide
  have ht0 : Int.toNat 2 = 2 := by decide
  have hE : getEdtAndRt60Slope (fun x => x + 1) ⟨2, 1, 0, 0, 0⟩ [5/2, 0] 1000 =
      some ([1, 1], 1, 1, 1) := by
    simp only [getEdtAndRt60Slope, getNumSamples, castU32, castU, rustRoundQ_eq, U32MAX,
      toEnergy, rt60Shape, edtScale, edtShape, mapi, maxByIdx, enumL, lenM1, maxStep,
      f32MIN, List.getD, h2, List.map, List.foldl, List.length]
    norm_num [Rat.floor_def', max_def, ht0]
  apply C9_energy_nonneg (fun x => x + 1) ⟨2, 1, 0, 0, 0⟩ [5/2, 0] 1000 [1, 1] 1 1 1 hE
  simp [List.getD]

/-! ### Small list helpers for the generate-level claims -/

theorem headD_eq_getD (l : List ℚ) : l.headD 0 = l.getD 0 0 := by
  cases l <;> rfl

theorem getD_drop_head (l : List ℚ) (n : ℕ) (h : n < l.length) :
    (l.drop n).getD 0 0 = l.getD n 0 := by
  have h1 : 0 < (l.drop n).length := by rw [List.length_drop]; omega
  rw [List.getD_eq_getElem _ _ h1, List.getD_eq_getElem _ _ h]
  rw [List.getElem_drop]
  simp

/-- Under the C5/C10 hypotheses a successful envelope run forces a nonempty
noise buffer: an empty buffer would mean zero RT60 samples, hence zero EDT
samples, and then the wrapped EDT loop bound `u32::MAX` would have tripped
the out-of-bounds guard. -/
theorem noise_ne_nil (g : ℚ → ℚ) (self : ImpulseResponse) (data : List ℚ)
    (rate : ℕ) (d4 : List ℚ) (dsi ers ere : ℕ)
    (hedt : self.edt ≤ self.rt60)
    (hlen : data.length = getNumSamples self.rt60 rate)
    (h : getEdtAndRt60Slope g self data rate = some (d4, dsi, ers, ere)) :
    data ≠ [] := by
  obtain ⟨_, _, _, _, hg1, _⟩ := getEdt_some g self data rate d4 dsi ers ere h
  intro hcon
  subst hcon
  simp only [List.length_nil] at hlen
  have hmono := getNumSamples_mono rate hedt
  rw [← hlen] at hmono
  have h0 : getNumSamples self.edt rate = 0 := by omega
  rw [if_pos h0] at hg1
  exact hg1 (by norm_num [U32MAX])

/-- Claim C5, counterexample: the spec parameters satisfy
`rt60 = 1 > 0.4 = edt > 0` with nonnegative itdg, er_duration and drr, yet
`generate` at 16 kHz panics (modelled `none`) instead of returning a
sequence: `edt = 0.4 ms` rounds to zero samples and the envelope loop
indexes out of bounds. -/
theorem C5_counterexample :
    (0 : ℚ) < 2/5 ∧ (2/5 : ℚ) < 1 ∧
    (List.replicate 16 (1 : ℚ)).length = getNumSamples 1 16000 ∧
    generate (fun x => x) (fun _ => 0) (fun _ => ([], [])) 1
      (ImpulseResponse.new 1 (2/5) 0 0 0) (List.replicate 16 1) 16000 = none := by
  have hE : getEdtAndRt60Slope (fun x => x) (ImpulseResponse.new 1 (2/5) 0 0 0)
      (List.replicate 16 1) 16000 = none := by
    simp only [ImpulseResponse.new, getEdtAndRt60Slope, getNumSamples, castU32, castU,
      rustRoundQ_eq, U32MAX]
    norm_num
  refine ⟨by norm_num, by norm_num, ?_, ?_⟩
  · have h16 : getNumSamples (1 : ℚ) 16000 = 16 := by
      simp only [getNumSamples, castU32, castU, rustRoundQ_eq, U32MAX]
      norm_num
      decide
    rw [h16]
    simp
  · simp only [generate, hE]

/-- Claim C5, amended: `rt60 > edt > 0` alone does not prevent a panic
(`edt` may round to zero samples — see the counterexample); but whenever
`generate` does return and the noise buffer has the length `get_noise`
produces, the result is the noise buffer truncated from the direct-sound
index onward: nonempty, of length `round(rt60/1000 * rate) -
direct_sound_idx`. -/
theorem C5_amended (g lg : ℚ → ℚ) (picks : ℕ → List ℕ × List ℕ) (fuel : ℕ)
    (self : ImpulseResponse) (noise : List ℚ) (rate : ℕ) (out : List ℚ)
    (hedt : self.edt ≤ self.rt60)
    (hlen : noise.length = getNumSamples self.rt60 rate)
    (h : generate g lg picks fuel self noise rate = some out) :
    ∃ d4 dsi ers ere,
      getEdtAndRt60Slope g self noise rate = some (d4, dsi, ers, ere) ∧
      dsi < getNumSamples self.rt60 rate ∧
      out.length = getNumSamples self.rt60 rate - dsi ∧
      out ≠ [] := by
  obtain ⟨d4, dsi, ers, ere, d5, hE, hR, hout⟩ :=
    generate_some g lg picks fuel self noise rate out h
  obtain ⟨_, hB, _, _, _, _⟩ := getEdt_some g self noise rate d4 dsi ers ere hE
  have hlen4 : d4.length = noise.length := getEdt_length g self noise rate d4 dsi ers ere hE
  have hnne : noise ≠ [] := noise_ne_nil g self noise rate d4 dsi ers ere hedt hlen hE
  have hnlen : 0 < noise.length := List.length_pos.mpr hnne
  have hd4ne : d4 ≠ [] := by
    intro hcon
    rw [hcon] at hlen4
    simp only [List.length_nil] at hlen4
    omega
  have hdsi : dsi < d4.length := by
    rw [hB]
    exact (maxByIdx_spec d4 hd4ne).1
  obtain ⟨hl5, _, _⟩ := randomize_some_spec lg picks fuel self d4 dsi ers ere rate d5 hR
  have houtlen : out.length = noise.length - dsi := by
    rw [hout, List.length_drop, hl5, hlen4]
  refine ⟨d4, dsi, ers, ere, hE, ?_, ?_, ?_⟩
  · rw [← hlen, ← hlen4]
    exact hdsi
  · rw [houtlen, hlen]
  · intro hcon
    rw [hcon] at houtlen
    simp only [List.length_nil] at houtlen
    rw [hlen4] at hdsi
    omega

/-- Claim C6: a zero reverberant-energy sum at DRR-computation time (after
the gap step) makes the thinning loop run zero iterations: the division
yields `+∞` or NaN, both of which terminate the control flow immediately,
and the buffer leaves `randomize_reflections` exactly as the gap step left
it — no NaN or infinity reaches the output buffer. -/
theorem C6_zero_reverb_noop (lg : ℚ → ℚ) (picks : ℕ → List ℕ × List ℕ)
    (fuel : ℕ) (self : ImpulseResponse) (data : List ℚ) (dsi ers ere rate : ℕ)
    (hnn : ∀ v ∈ data, 0 ≤ v)
    (hrev : ((createInitialTimeDelayGap self data dsi rate).drop (dsi + 1)).sum = 0) :
    randomizeReflections lg picks fuel self data dsi ers ere rate =
      some (createInitialTimeDelayGap self data dsi rate) :=
  randomize_zero_reverb lg picks fuel self data dsi ers ere rate hnn hrev

/-- Claim C6 witness: a one-sample buffer has an empty reverberant tail, so
`randomize_reflections` returns the gapped buffer unchanged. -/
theorem C6_witness :
    randomizeReflections (fun _ => 0) (fun _ => ([], [])) 3
      ⟨500, 50, 5, 50, -1⟩ [1] 0 0 0 16000 =
      some (createInitialTimeDelayGap ⟨500, 50, 5, 50, -1⟩ [1] 0 16000) := by
  have hnn : ∀ v ∈ ([1] : List ℚ), 0 ≤ v := by norm_num
  have hrev : ((createInitialTimeDelayGap ⟨500, 50, 5, 50, -1⟩ [1] 0 16000).drop
      (0 + 1)).sum = 0 := by
    simp [createInitialTimeDelayGap, mapi, show List.range 1 = [0] from by decide]
  exact C6_zero_reverb_noop (fun _ => 0) (fun _ => ([], [])) 3 ⟨500, 50, 5, 50, -1⟩
    [1] 0 0 0 16000 hnn hrev

/-- Claim C7: when the DRR measured right after the gap step already exceeds
`drr + 0.5`, the thinning loop runs zero iterations and every sample outside
the time-delay-gap range leaves `randomize_reflections` unchanged. -/
theorem C7_high_drr_noop (lg : ℚ → ℚ) (picks : ℕ → List ℕ × List ℕ)
    (fuel : ℕ) (self : ImpulseResponse) (data : List ℚ) (dsi ers ere rate : ℕ)
    (hgt : fgt (calculateDrr lg (createInitialTimeDelayGap self data dsi rate) dsi)
      (F.fin (self.drr + 1/2)) = true) :
    randomizeReflections lg picks fuel self data dsi ers ere rate =
      some (createInitialTimeDelayGap self data dsi rate) ∧
    ∀ i, i < dsi + 1 ∨
      min (dsi + 1 + castU (self.itdg * (rate : ℚ))) (lenM1 data) ≤ i →
      (createInitialTimeDelayGap self data dsi rate).getD i 0 = data.getD i 0 :=
  ⟨randomize_high_drr lg picks fuel self data dsi ers ere rate hgt,
   fun i hi => gap_getD_frame self data dsi rate i hi⟩

/-- Claim C7 witness: on `[1, 0]` with a target DRR of `-1` dB the measured
DRR is `+∞`, which exceeds `-0.5`: the loop never runs and the sample at
index 0 (outside the gap range) is untouched. -/
theorem C7_witness :
    randomizeReflections (fun _ => 0) (fun _ => ([], [])) 4
        ⟨500, 50, 0, 50, -1⟩ [1, 0] 0 1 1 16000 =
      some (createInitialTimeDelayGap ⟨500, 50, 0, 50, -1⟩ [1, 0] 0 16000) ∧
    (createInitialTimeDelayGap ⟨500, 50, 0, 50, -1⟩ [1, 0] 0 16000).getD 0 0 =
      ([1, 0] : List ℚ).getD 0 0 := by
  have h2 : List.range 2 = [0, 1] := by decide
  have hgt : fgt (calculateDrr (fun _ => 0)
      (createInitialTimeDelayGap ⟨500, 50, 0, 50, -1⟩ [1, 0] 0 16000) 0)
      (F.fin ((⟨500, 50, 0, 50, -1⟩ : ImpulseResponse).drr + 1/2)) = true := by
    have hgap : createInitialTimeDelayGap ⟨500, 50, 0, 50, -1⟩ [1, 0] 0 16000 =
        [1, 0] := by
      simp only [createInitialTimeDelayGap, mapi, lenM1, castU, rustRoundQ_eq,
        List.getD, h2, List.map, List.length]
      norm_num
    rw [hgap]
    simp only [calculateDrr, List.take, List.drop, List.sum_cons, List.sum_nil,
      fdiv, flog10, fmul10, fgt]
    norm_num
  have h := C7_high_drr_noop (fun _ => 0) (fun _ => ([], [])) 4
    ⟨500, 50, 0, 50, -1⟩ [1, 0] 0 1 1 16000 hgt
  exact ⟨h.1, h.2 0 (Or.inl (by norm_num))⟩

/-- Claim C5 witness: a fully concrete successful run of `generate`: the
2-sample buffer truncated at the direct-sound index 1 has length
`rt60_samples - 1 = 1`. -/
theorem C5_amended_witness :
    ([1] : List ℚ).length =
      getNumSamples (⟨2, 1, 0, 0, 0⟩ : ImpulseResponse).rt60 1000 - 1 := by
  have h2 : List.range 2 = [0, 1] := by decide
  have ht0 : Int.toNat 2 = 2 := by decide
  have hE : getEdtAndRt60Slope (fun x => x + 1) ⟨2, 1, 0, 0, 0⟩ [5/2, 0] 1000 =
      some ([1, 1], 1, 1, 1) := by
    simp only [getEdtAndRt60Slope, getNumSamples, castU32, castU, rustRoundQ_eq, U32MAX,
      toEnergy, rt60Shape, edtScale, edtShape, mapi, maxByIdx, enumL, lenM1, maxStep,
      f32MIN, List.getD, h2, List.map, List.foldl, List.length]
    norm_num [Rat.floor_def', max_def, ht0]
  have hgap : createInitialTimeDelayGap ⟨2, 1, 0, 0, 0⟩ [1, 1] 1 1000 = [1, 1] := by
    simp only [createInitialTimeDelayGap, mapi, lenM1, castU, rustRoundQ_eq,
      List.getD, h2, List.map, List.length]
    norm_num
  have hR : randomizeReflections (fun _ => 0) (fun _ => ([], [])) 1
      ⟨2, 1, 0, 0, 0⟩ [1, 1] 1 1 1 1000 = some [1, 1] := by
    simp only [randomizeReflections, hgap]
    have hdrr : calculateDrr (fun _ => 0) [1, 1] 1 = F.inf := by
      simp only [calculateDrr, List.take, List.drop, List.sum_cons, List.sum_nil,
        fdiv, flog10, fmul10]
      norm_num
    rw [hdrr]
    rw [if_pos (by simp [fgt])]
  have hgen : generate (fun x => x + 1) (fun _ => 0) (fun _ => ([], [])) 1
      ⟨2, 1, 0, 0, 0⟩ [5/2, 0] 1000 = some [1] := by
    simp only [generate, hE, hR]
    rfl
  have hlen : ([5/2, 0] : List ℚ).length =
      getNumSamples (⟨2, 1, 0, 0, 0⟩ : ImpulseResponse).rt60 1000 := by
    have h16 : getNumSamples (2 : ℚ) 1000 = 2 := by
      simp only [getNumSamples, castU32, castU, rustRoundQ_eq, U32MAX]
      norm_num
      decide
    rw [show (⟨2, 1, 0, 0, 0⟩ : ImpulseResponse).rt60 = (2 : ℚ) from rfl, h16]
    rfl
  obtain ⟨d4, dsi, ers, ere, hEq, hdsi, hlenout, hne⟩ :=
    C5_amended (fun x => x + 1) (fun _ => 0) (fun _ => ([], [])) 1
      ⟨2, 1, 0, 0, 0⟩ [5/2, 0] 1000 [1] (by norm_num) hlen hgen
  have hinj := hE.symm.trans hEq
  simp only [Option.some.injEq, Prod.mk.injEq] at hinj
  rw [← hinj.2.1] at hlenout
  exact hlenout

/-- Claim C10: whenever `generate` returns (with the noise buffer sized as
`get_noise` sizes it, at least one EDT sample, noise values at least `-5`,
and a dB-to-gain map that is monotone, nonnegative and maps 0 dB to gain 1 —
all true of `10^(x/20)`), the first returned sample, the one at
`direct_sound_idx`, is exactly 1 and every returned sample is at most 1:
neither the gap step nor any thinning iteration ever touches the
direct-sound sample. -/
theorem C10_peak_one (g lg : ℚ → ℚ) (picks : ℕ → List ℕ × List ℕ) (fuel : ℕ)
    (self : ImpulseResponse) (noise : List ℚ) (rate : ℕ) (out : List ℚ)
    (hmono : Monotone g) (hpos : ∀ x, 0 ≤ g x) (hg0 : g 0 = 1)
    (hnoise : ∀ v ∈ noise, -5 ≤ v)
    (hedt : self.edt ≤ self.rt60)
    (hlen : noise.length = getNumSamples self.rt60 rate)
    (hedtN : 1 ≤ getNumSamples self.edt rate)
    (h : generate g lg picks fuel self noise rate = some out) :
    out.headD 0 = 1 ∧ ∀ y ∈ out, y ≤ 1 := by
  obtain ⟨d4, dsi, ers, ere, d5, hE, hR, hout⟩ :=
    generate_some g lg picks fuel self noise rate out h
  obtain ⟨_, hB, hC, hD, _, _⟩ := getEdt_some g self noise rate d4 dsi ers ere hE
  have hlen4 : d4.length = noise.length := getEdt_length g self noise rate d4 dsi ers ere hE
  have hnne : noise ≠ [] := noise_ne_nil g self noise rate d4 dsi ers ere hedt hlen hE
  have hnlen : 0 < noise.length := List.length_pos.mpr hnne
  have hd4ne : d4 ≠ [] := by
    intro hcon
    rw [hcon] at hlen4
    simp only [List.length_nil] at hlen4
    omega
  have hd0 : -5 ≤ noise.getD 0 0 := by
    apply hnoise
    rw [List.getD_eq_getElem _ _ hnlen]
    exact List.getElem_mem hnlen
  obtain ⟨hpeak, hub⟩ := getEdt_peak g self noise rate d4 dsi ers ere hmono hpos
    hedtN hd0 hnne hE
  rw [hg0, one_pow] at hpeak hub
  have hdsi : dsi < d4.length := by
    rw [hB]
    exact (maxByIdx_spec d4 hd4ne).1
  obtain ⟨hl5, hv5, hs5⟩ := randomize_some_spec lg picks fuel self d4 dsi ers ere rate d5 hR
  have hd5dsi : d5.getD dsi 0 = d4.getD dsi 0 := by
    by_cases hcase : dsi < ers
    · have hers_le : ers ≤ lenM1 d4 := by
        rw [hC]
        exact min_le_right _ _
      have here : dsi < ere := by
        rw [hD]
        exact lt_min (by omega) (by omega)
      exact hs5 hcase here
    · push_neg at hcase
      rw [hC] at hcase
      have hlenm1 : lenM1 d4 ≤ dsi := by
        rcases min_le_iff.mp hcase with h' | h'
        · omega
        · exact h'
      have hdsieq : d4.length - 1 ≤ dsi := by
        unfold lenM1 at hlenm1
        rw [if_neg (by omega)] at hlenm1
        exact hlenm1
      have hzero : randomizeReflections lg picks fuel self d4 dsi ers ere rate =
          some (createInitialTimeDelayGap self d4 dsi rate) := by
        apply randomize_zero_reverb
        · exact getEdt_nonneg g self noise rate d4 dsi ers ere hE
        · have hgl : (createInitialTimeDelayGap self d4 dsi rate).length ≤ dsi + 1 := by
            rw [gap_length]
            omega
          rw [List.drop_eq_nil_of_le hgl]
          rfl
      rw [hR] at hzero
      injection hzero with hzero
      rw [hzero]
      exact gap_getD_frame self d4 dsi rate dsi (Or.inl (by omega))
  have hdsi5 : dsi < d5.length := by rw [hl5]; exact hdsi
  constructor
  · rw [hout, headD_eq_getD, getD_drop_head d5 dsi hdsi5, hd5dsi, hpeak]
  · intro y hy
    rw [hout] at hy
    have hy5 : y ∈ d5 := List.drop_subset _ _ hy
    obtain ⟨i, hi, hival⟩ := List.mem_iff_getElem.mp hy5
    have hiD : d5.getD i 0 = y := by rw [List.getD_eq_getElem _ _ hi, hival]
    rcases hv5 i with h' | h'
    · rw [hiD] at h'
      have hid4 : i < d4.length := by rw [← hl5]; exact hi
      have : d4.getD i 0 ∈ d4 := by
        rw [List.getD_eq_getElem _ _ hid4]
        exact List.getElem_mem hid4
      rw [h']
      exact hub _ this
    · rw [hiD] at h'
      rw [h']
      norm_num

/-- Claim C10 witness: the peak theorem at a fully concrete run, with the
dB-to-gain surrogate `x ↦ max (x + 1) 0` (monotone, nonnegative, 1 at 0):
the single returned sample is exactly 1 and bounded by 1. -/
theorem C10_witness :
    ([1] : List ℚ).headD 0 = 1 ∧ ([1] : List ℚ).getD 0 0 ≤ 1 := by
  have h2 : List.range 2 = [0, 1] := by decide
  have ht0 : Int.toNat 2 = 2 := by decide
  have hE : getEdtAndRt60Slope (fun x => max (x + 1) 0) ⟨2, 1, 0, 0, 0⟩ [5/2, 0] 1000 =
      some ([1, 1], 1, 1, 1) := by
    simp only [getEdtAndRt60Slope, getNumSamples, castU32, castU, rustRoundQ_eq, U32MAX,
      toEnergy, rt60Shape, edtScale, edtShape, mapi, maxByIdx, enumL, lenM1, maxStep,
      f32MIN, List.getD, h2, List.map, List.foldl, List.length]
    norm_num [Rat.floor_def', max_def, ht0]
  have hgap : createInitialTimeDelayGap ⟨2, 1, 0, 0, 0⟩ [1, 1] 1 1000 = [1, 1] := by
    simp only [createInitialTimeDelayGap, mapi, lenM1, castU, rustRoundQ_eq,
      List.getD, h2, List.map, List.length]
    norm_num
  have hR : randomizeReflections (fun _ => 0) (fun _ => ([], [])) 1
      ⟨2, 1, 0, 0, 0⟩ [1, 1] 1 1 1 1000 = some [1, 1] := by
    simp only [randomizeReflections, hgap]
    have hdrr : calculateDrr (fun _ => 0) [1, 1] 1 = F.inf := by
      simp only [calculateDrr, List.take, List.drop, List.sum_cons, List.sum_nil,
        fdiv, flog10, fmul10]
      norm_num
    rw [hdrr]
    rw [if_pos (by simp [fgt])]
  have hgen : generate (fun x => max (x + 1) 0) (fun _ => 0) (fun _ => ([], [])) 1
      ⟨2, 1, 0, 0, 0⟩ [5/2, 0] 1000 = some [1] := by
    simp only [generate, hE, hR]
    rfl
  have h := C10_peak_one (fun x => max (x + 1) 0) (fun _ => 0) (fun _ => ([], [])) 1
    ⟨2, 1, 0, 0, 0⟩ [5/2, 0] 1000 [1]
    (fun a b hab => max_le_max (by linarith) (le_refl 0))
    (fun x => le_max_right _ 0)
    (by norm_num)
    (by
      intro v hv
      rcases List.mem_cons.mp hv with h' | h'
      · rw [h']; norm_num
      · rcases List.mem_cons.mp h' with h'' | h''
        · rw [h'']; norm_num
        · exact absurd h'' (List.not_mem_nil v))
    (by norm_num)
    (by
      have h16 : getNumSamples (2 : ℚ) 1000 = 2 := by
        simp only [getNumSamples, castU32, castU, rustRoundQ_eq, U32MAX]
        norm_num
        decide
      rw [show (⟨2, 1, 0, 0, 0⟩ : ImpulseResponse).rt60 = (2 : ℚ) from rfl, h16]
      rfl)
    (by
      have h1n : getNumSamples (1 : ℚ) 1000 = 1 := by
        simp only [getNumSamples, castU32, castU, rustRoundQ_eq, U32MAX]
        norm_num
      rw [show (⟨2, 1, 0, 0, 0⟩ : ImpulseResponse).edt = (1 : ℚ) from rfl, h1n])
    hgen
  refine ⟨h.1, h.2 _ ?_⟩
  simp [List.getD]
end Storir

